import Mathlib

/-!
Verification of the retrieval/scoring core of the AI Docs Chatbot backend
(`src/main.py`).  Strings are modelled as lists of Unicode code points
(`Str := List Nat`), mirroring Python's sequence-of-code-points strings.
The character-level helpers (`isAlnum`, `toLower`, `isSpace`) embed the
ASCII-range behaviour of the regular expressions and string methods the
source relies on; outside that range they are the identity, which is
faithful for every construct the endpoint applies to ASCII tokens.
-/

/-- Strings as sequences of Unicode code points. -/
abbrev Str := List Nat

/-- Code points of a Lean string literal, for writing concrete inputs. -/
def strCodes (s : String) : Str := s.data.map Char.toNat

/-- Membership of a code point in the character class `[a-zA-Z0-9]`
used by `re.findall` in `tokenize` (src/main.py line 113). -/
def isAlnum (c : Nat) : Bool :=
  decide ((97 ≤ c ∧ c ≤ 122) ∨ (65 ≤ c ∧ c ≤ 90) ∨ (48 ≤ c ∧ c ≤ 57))

/-- ASCII lowercasing, the effect of `str.lower` on the code points the
endpoint ever compares (identity outside `A`-`Z`). -/
def toLower (c : Nat) : Nat :=
  if 65 ≤ c ∧ c ≤ 90 then c + 32 else c

/-- Python whitespace (`str.isspace` / regex `\s`): ASCII whitespace,
the C1 separators, and the Unicode space characters. -/
def isSpace (c : Nat) : Bool :=
  decide ((9 ≤ c ∧ c ≤ 13) ∨ (28 ≤ c ∧ c ≤ 31) ∨ c = 32 ∨ c = 133 ∨ c = 160 ∨
    c = 5760 ∨ (8192 ≤ c ∧ c ≤ 8202) ∨ c = 8232 ∨ c = 8233 ∨ c = 8239 ∨
    c = 8287 ∨ c = 12288)

/-- Lowercase a whole string (`str.lower`). -/
def lowerStr (s : Str) : Str := s.map toLower

/-- Python `str.strip()`: drop leading and trailing whitespace. -/
def strip (s : Str) : Str :=
  ((s.dropWhile fun c => isSpace c).reverse.dropWhile fun c => isSpace c).reverse

/-- Accumulator pass of the tokenizer: `re.findall(r"[a-zA-Z0-9]+", t)`
emits maximal alphanumeric runs; each run is lowercased as it is built,
matching `[w.lower() for w in re.findall(...)]`. -/
def tokenizeAux : Str → Str → List Str
  | [], acc => if acc = [] then [] else [acc]
  | c :: cs, acc =>
    if isAlnum c then tokenizeAux cs (acc ++ [toLower c])
    else if acc = [] then tokenizeAux cs [] else acc :: tokenizeAux cs []

/-- `tokenize` from src/main.py lines 112-113. -/
def tokenize (t : Str) : List Str := tokenizeAux t []

/-- Does `t` occur at the start of the second argument (helper for the
Python substring test `t in s`). -/
def strStarts : Str → Str → Bool
  | [], _ => true
  | _ :: _, [] => false
  | c :: t, d :: s => c == d && strStarts t s

/-- Python substring containment `t in s`. -/
def strContains (t : Str) : Str → Bool
  | [] => t.isEmpty
  | d :: s => strStarts t (d :: s) || strContains t s

/-- Is the last accumulated character one of `.`, `!`, `?` (the
lookbehind `(?<=[.!?])` of the sentence-splitting regex). -/
def lastPunct (acc : Str) : Bool :=
  match acc.getLast? with
  | some p => p == 46 || p == 33 || p == 63
  | none => false

/-- Fuelled scan implementing `re.split(r"(?<=[.!?])\s+", text)`
(src/main.py line 138): a maximal whitespace run preceded by `.`, `!`
or `?` separates sentences and is consumed.  The fuel dominates the
remaining length, so the zero-fuel arm is never reached from
`splitSentences`. -/
def sentAuxF : Nat → Str → Str → List Str
  | 0, _, acc => [acc]
  | _ + 1, [], acc => [acc]
  | fuel + 1, c :: cs, acc =>
    if isSpace c && lastPunct acc then acc :: sentAuxF fuel (cs.dropWhile fun d => isSpace d) []
    else sentAuxF fuel cs (acc ++ [c])

/-- Sentence splitting of `extract_snippets` (src/main.py line 138). -/
def splitSentences (t : Str) : List Str := sentAuxF t.length t []

/-- Join with a single space, `" ".join(selected)`. -/
def joinSpace : List Str → Str
  | [] => []
  | [s] => s
  | s :: rest => s ++ 32 :: joinSpace rest

/-- Join with `" \n\n"`, the snippet separator of src/main.py line 151. -/
def joinBlank : List Str → Str
  | [] => []
  | [s] => s
  | s :: rest => s ++ 32 :: 10 :: 10 :: joinBlank rest

/-- Total length of the selected sentences, `sum(len(x) for x in selected)`. -/
def sumLen (l : List Str) : Nat := (l.map List.length).sum

/-- The per-sentence test of src/main.py line 142:
`any(t in s_low for t in q_terms)` with `s_low = s.lower()`. -/
def sentenceMatches (qts : List Str) (s : Str) : Bool :=
  qts.any fun t => strContains t (lowerStr s)

/-- The sentence-selection loop of `extract_snippets`
(src/main.py lines 139-145): append each matching sentence stripped,
and break once the accumulated length exceeds 600. -/
def selectLoop (qts : List Str) : List Str → List Str → List Str
  | [], selected => selected
  | s :: rest, selected =>
    let sel2 := if sentenceMatches qts s then selected ++ [strip s] else selected
    if 600 < sumLen sel2 then sel2 else selectLoop qts rest sel2

/-- `extract_snippets` from src/main.py lines 137-148, with
`max_chars = 600` as at the only call site. -/
def extract_snippets (text : Str) (qts : List Str) : Str :=
  (fun selected =>
    if selected.isEmpty then text.take 600 else (joinSpace selected).take 600)
  (selectLoop qts (splitSentences text) [])

/-- The sentences that pass the containment test, stripped, in order —
the spec's description of which sentences are eligible for the snippet. -/
def matchedSentences (text : Str) (qts : List Str) : List Str :=
  ((splitSentences text).filter (sentenceMatches qts)).map strip

/-- The spec's accumulation rule: take sentences in order, stopping right
after the one that pushes the running total of lengths past 600. -/
def takeUntilOverflow : Nat → List Str → List Str
  | _, [] => []
  | acc, s :: rest =>
    if 600 < acc + s.length then [s] else s :: takeUntilOverflow (acc + s.length) rest

/-- Snippet extraction as worded by the spec (section 4.1): select the
matching sentences in order until the running total exceeds 600, join
with single spaces and truncate to 600; if none matched, the first 600
characters of the raw content. -/
def extractSnippetsSpec (text : Str) (qts : List Str) : Str :=
  if matchedSentences text qts = [] then text.take 600
  else (joinSpace (takeUntilOverflow 0 (matchedSentences text qts))).take 600

/-- A stored resource document: the fields of the `resource` collection
that the ask endpoint reads (`_id`, `title`, `url`, `content`), with the
store-assigned identifier abstracted as a number. -/
structure Doc where
  id : Nat
  title : Str
  url : Str
  content : Str
deriving DecidableEq

/-- The score of src/main.py lines 125-126: `counts = Counter(tokens)`
then `sum(counts[t] for t in q_tokens)` — each occurrence of a question
token contributes the token's frequency in the document. -/
def docScore (qts : List Str) (d : Doc) : Nat :=
  (qts.map fun t => (tokenize d.content).count t).sum

/-- The scoring loop of src/main.py lines 119-128: skip documents whose
tokenized content is empty, keep `(score, doc)` pairs with positive
score, in retrieval order. -/
def scoredDocs (qts : List Str) : List Doc → List (Nat × Doc)
  | [] => []
  | d :: ds =>
    if (tokenize d.content).isEmpty then scoredDocs qts ds
    else if 0 < docScore qts d then (docScore qts d, d) :: scoredDocs qts ds
    else scoredDocs qts ds

/-- Stable descending insertion on the score component: an element goes
after everything strictly greater and before the first element with a
score less than or equal to its own. -/
def insertDesc (x : Nat × Doc) : List (Nat × Doc) → List (Nat × Doc)
  | [] => [x]
  | y :: ys => if x.1 < y.1 then y :: insertDesc x ys else x :: y :: ys

/-- `scored.sort(key=lambda x: x[0], reverse=True)` (src/main.py line
133): the stable sort by score descending. -/
def sortDesc : List (Nat × Doc) → List (Nat × Doc)
  | [] => []
  | x :: xs => insertDesc x (sortDesc xs)

/-- Python list slicing `l[:k]` for an arbitrary integer bound, as used
by `scored[: payload.top_k]` (src/main.py line 134): a negative bound
counts from the end. -/
def pySlice {α : Type} (l : List α) (k : Int) : List α :=
  if 0 ≤ k then l.take k.toNat else l.take (l.length - (-k).toNat)

/-- The source citation kept by `normalize_source` (src/main.py line
172): id, title and url of a ranked document. -/
structure Source where
  id : Nat
  title : Str
  url : Str
deriving DecidableEq

/-- The `/api/ask` response body: an answer string and source citations. -/
structure AskResponse where
  answer : Str
  sources : List Source
deriving DecidableEq

/-- The fixed empty-store message of src/main.py line 106. -/
def noResourcesMsg : Str :=
  strCodes "I don" ++ 39 :: strCodes "t have any resources yet. Please add a website or docs first."

/-- The fixed no-match message of src/main.py line 131. -/
def noInfoMsg : Str :=
  strCodes "I couldn" ++ 39 :: strCodes "t find information about that in the provided resources."

/-- The fixed lead-in of the composed answer (src/main.py line 155). -/
def answerIntro : Str :=
  strCodes "Here" ++ 39 :: strCodes "s what I found based on your resources: \n\n"

/-- The fixed trailing suggestion of the composed answer (src/main.py line 156). -/
def answerOutro : Str :=
  strCodes "\n\nIf you" ++ 39 :: strCodes "d like, you can add more sources for better answers."

/-- Modelled from the spec: the Document Store operation
`getDocuments(collection, filter, limit)` lives in `database.py`, which
is not part of the sources; per spec section 4.3 it returns stored
records, capped at `limit`, in the store's stable natural order.  With
the empty filter used by the ask endpoint this is the first `limit`
stored documents. -/
def get_documents (store : List Doc) (limit : Nat) : List Doc :=
  store.take limit

/-- The `/api/ask` handler body, src/main.py lines 92-176: strip and
validate the question, fetch up to 100 candidates, score, rank, slice
to `top_k`, extract snippets and compose the answer.  An
`HTTPException` is modelled as `Except.error status`. -/
def ask_question (question : Str) (store : List Doc) (k : Int) : Except Nat AskResponse :=
  let q := strip question
  if q.isEmpty then Except.error 400
  else
    let docs := get_documents store 100
    if docs.isEmpty then Except.ok ⟨noResourcesMsg, []⟩
    else
      let qTokens := tokenize q
      let scored := scoredDocs qTokens docs
      if scored.isEmpty then Except.ok ⟨noInfoMsg, []⟩
      else
        let top := (pySlice (sortDesc scored) k).map Prod.snd
        let combined := joinBlank (top.map fun d => extract_snippets d.content qTokens)
        Except.ok ⟨answerIntro ++ combined ++ answerOutro,
          top.map fun d => ⟨d.id, d.title, d.url⟩⟩

/-- The full request path for `/api/ask`: pydantic first rejects bodies
whose `question` has fewer than 3 characters (`Field(..., min_length=3)`,
src/main.py line 28, FastAPI status 422) before the handler runs. -/
def handle_ask (question : Str) (store : List Doc) (k : Int) : Except Nat AskResponse :=
  if question.length < 3 then Except.error 422 else ask_question question store k

deriving instance DecidableEq for Except

example : tokenize (strCodes "Cat DOG") = [strCodes "cat", strCodes "dog"] := by decide

example : splitSentences (strCodes "Rust is great. It works! ok") =
    [strCodes "Rust is great.", strCodes "It works!", strCodes "ok"] := by decide

example : extract_snippets (strCodes "Rust is safe. Go is fast.") [strCodes "rust"] =
    strCodes "Rust is safe." := by decide

example : handle_ask (strCodes "  ") [] 3 = Except.error 422 := by decide

example : handle_ask (strCodes "   ") [] 3 = Except.error 400 := by decide

example : handle_ask (strCodes "what is rust") [] 3 = Except.ok ⟨noResourcesMsg, []⟩ := by decide

theorem toLower_toLower (c : Nat) : toLower (toLower c) = toLower c := by
  unfold toLower
  split_ifs <;> omega

theorem isAlnum_toLower (c : Nat) : isAlnum (toLower c) = isAlnum c := by
  unfold toLower isAlnum
  split_ifs with h
  · simp only [decide_eq_decide]
    omega
  · rfl

theorem tokenizeAux_good (t : Str) :
    ∀ acc, (∀ c ∈ acc, isAlnum c = true ∧ toLower c = c) →
      ∀ w ∈ tokenizeAux t acc, w ≠ [] ∧ ∀ c ∈ w, isAlnum c = true ∧ toLower c = c := by
  induction t with
  | nil =>
    intro acc hacc w hw
    by_cases h : acc = []
    · simp [tokenizeAux, h] at hw
    · simp only [tokenizeAux, if_neg h, List.mem_singleton] at hw
      subst hw
      exact ⟨h, hacc⟩
  | cons c cs ih =>
    intro acc hacc w hw
    by_cases hA : isAlnum c = true
    · simp only [tokenizeAux, if_pos hA] at hw
      refine ih _ ?_ w hw
      intro x hx
      rcases List.mem_append.1 hx with h1 | h1
      · exact hacc x h1
      · rw [List.mem_singleton] at h1
        subst h1
        exact ⟨by rw [isAlnum_toLower]; exact hA, toLower_toLower c⟩
    · simp only [tokenizeAux, if_neg hA] at hw
      by_cases he : acc = []
      · rw [if_pos he] at hw
        exact ih [] (by simp) w hw
      · rw [if_neg he] at hw
        rcases List.mem_cons.1 hw with h1 | h1
        · subst h1
          exact ⟨he, hacc⟩
        · exact ih [] (by simp) w h1

theorem tokenizeAux_run (w : Str) :
    ∀ (cs acc : Str), (∀ c ∈ w, isAlnum c = true ∧ toLower c = c) →
      tokenizeAux (w ++ cs) acc = tokenizeAux cs (acc ++ w) := by
  induction w with
  | nil =>
    intro cs acc _
    simp
  | cons c w2 ih =>
    intro cs acc h
    have hc := h c (List.mem_cons_self c w2)
    simp only [List.cons_append, tokenizeAux, if_pos hc.1, hc.2, List.append_eq]
    rw [ih cs (acc ++ [c]) fun x hx => h x (List.mem_cons_of_mem _ hx)]
    simp

theorem tokenizeAux_space (cs acc : Str) (h : acc ≠ []) :
    tokenizeAux (32 :: cs) acc = acc :: tokenizeAux cs [] := by
  simp [tokenizeAux, h, show isAlnum 32 = false from rfl]

theorem tokenize_joinSpace :
    ∀ ws : List Str, (∀ w ∈ ws, w ≠ [] ∧ ∀ c ∈ w, isAlnum c = true ∧ toLower c = c) →
      tokenize (joinSpace ws) = ws := by
  intro ws
  induction ws with
  | nil =>
    intro _
    rfl
  | cons w ws2 ih =>
    intro h
    have hw := h w (List.mem_cons_self w ws2)
    cases ws2 with
    | nil =>
      show tokenizeAux (joinSpace [w]) [] = [w]
      have h2 := tokenizeAux_run w [] [] hw.2
      simp only [List.append_nil, List.nil_append] at h2
      simp only [joinSpace, h2, tokenizeAux, if_neg hw.1]
    | cons w2 ws3 =>
      show tokenizeAux (joinSpace (w :: w2 :: ws3)) [] = w :: w2 :: ws3
      have hjoin : joinSpace (w :: w2 :: ws3) = w ++ 32 :: joinSpace (w2 :: ws3) := rfl
      rw [hjoin, tokenizeAux_run w _ [] hw.2]
      simp only [List.nil_append]
      rw [tokenizeAux_space _ _ hw.1]
      have := ih fun x hx => h x (List.mem_cons_of_mem _ hx)
      rw [show tokenizeAux (joinSpace (w2 :: ws3)) [] = tokenize (joinSpace (w2 :: ws3)) from rfl,
        this]

theorem tokenizeAux_lower (t : Str) : ∀ acc, tokenizeAux (lowerStr t) acc = tokenizeAux t acc := by
  induction t with
  | nil =>
    intro acc
    rfl
  | cons c cs ih =>
    intro acc
    simp only [lowerStr, List.map_cons] at ih ⊢
    simp only [tokenizeAux, isAlnum_toLower, toLower_toLower]
    split_ifs <;> simp [ih]

/-- C6: the tokenizer lowercases and splits on non-alphanumerics; it is
idempotent on already-tokenized text (retokenizing the space-join of a
token list reproduces it), case-insensitive, and sends "Cat DOG" to
["cat", "dog"]. -/
theorem C6_tokenize_properties :
    (∀ t : Str, tokenize (joinSpace (tokenize t)) = tokenize t) ∧
    (∀ t : Str, tokenize (lowerStr t) = tokenize t) ∧
    tokenize (strCodes "Cat DOG") = [strCodes "cat", strCodes "dog"] :=
  ⟨fun t => tokenize_joinSpace _ (tokenizeAux_good t [] (by simp)),
    fun t => tokenizeAux_lower t [], by decide⟩

theorem docScore_of_nil (qts : List Str) (d : Doc) (h : tokenize d.content = []) :
    docScore qts d = 0 := by
  unfold docScore
  rw [h]
  induction qts with
  | nil => rfl
  | cons t ts ih => simp [List.count_nil, ih]

theorem scoredDocs_eq (qts : List Str) (docs : List Doc) :
    scoredDocs qts docs =
      (docs.filter fun d => !(tokenize d.content).isEmpty && decide (0 < docScore qts d)).map
        fun d => (docScore qts d, d) := by
  induction docs with
  | nil => rfl
  | cons d ds ih =>
    by_cases h1 : (tokenize d.content).isEmpty
    · have h0 : docScore qts d = 0 :=
        docScore_of_nil qts d (by rwa [List.isEmpty_iff] at h1)
      simp [scoredDocs, List.filter_cons, h1, h0, ih]
    · by_cases h2 : 0 < docScore qts d
      · simp [scoredDocs, List.filter_cons, h1, h2, ih]
      · simp [scoredDocs, List.filter_cons, h1, h2, ih]

theorem scoredDocs_mem {qts : List Str} {docs : List Doc} {p : Nat × Doc}
    (h : p ∈ scoredDocs qts docs) : p.2 ∈ docs := by
  rw [scoredDocs_eq] at h
  rcases List.mem_map.1 h with ⟨d, hd, rfl⟩
  exact List.mem_of_mem_filter hd

theorem scoredDocs_of_all_zero (qts : List Str) :
    ∀ ds : List Doc, (∀ d ∈ ds, docScore qts d = 0) → scoredDocs qts ds = [] := by
  intro ds
  induction ds with
  | nil =>
    intro _
    rfl
  | cons d ds2 ih =>
    intro hz
    have h0 := hz d (List.mem_cons_self d ds2)
    have htail := ih fun x hx => hz x (List.mem_cons_of_mem _ hx)
    simp only [scoredDocs, h0]
    split_ifs with hA hB
    · exact htail
    · omega
    · exact htail

/-- C1: the score a candidate document receives in the ask endpoint is
the sum, over each token of the question's token sequence (repetitions
counted once per occurrence), of that token's occurrence count among
the document's tokens; only documents with positive score are kept for
ranking, and documents with empty tokenized content are skipped. -/
theorem C1_scoring_characterization (qts : List Str) (docs : List Doc) :
    scoredDocs qts docs =
      (docs.filter fun d =>
          !(tokenize d.content).isEmpty &&
            decide (0 < ((qts.map fun t => (tokenize d.content).count t).sum))).map
        fun d => (((qts.map fun t => (tokenize d.content).count t).sum), d) :=
  scoredDocs_eq qts docs

/-- C7: scoring is monotonic in term frequency — if two documents agree
on the frequency of every question token except one, the document with
at least as many occurrences of that token scores at least as high. -/
theorem C7_score_monotone (qts : List Str) (t0 : Str) (d1 d2 : Doc)
    (ht : t0 ∈ qts)
    (heq : ∀ t ∈ qts, t ≠ t0 → (tokenize d2.content).count t = (tokenize d1.content).count t)
    (hle : (tokenize d2.content).count t0 ≤ (tokenize d1.content).count t0) :
    docScore qts d2 ≤ docScore qts d1 := by
  unfold docScore
  apply List.sum_le_sum
  intro t htm
  by_cases h : t = t0
  · subst h
    exact hle
  · exact le_of_eq (heq t htm h)

/-- Witness for C7 at a concrete pair of documents. -/
theorem C7_score_monotone_witness :
    strCodes "a" ∈ [strCodes "a"] ∧
      docScore [strCodes "a"] ⟨2, [], [], strCodes "a"⟩ ≤
        docScore [strCodes "a"] ⟨1, [], [], strCodes "a a"⟩ :=
  ⟨by decide,
    C7_score_monotone [strCodes "a"] (strCodes "a") ⟨1, [], [], strCodes "a a"⟩
      ⟨2, [], [], strCodes "a"⟩ (by decide) (by decide) (by decide)⟩

theorem mem_insertDesc {x a : Nat × Doc} : ∀ {l}, a ∈ insertDesc x l ↔ a = x ∨ a ∈ l := by
  intro l
  induction l with
  | nil => simp [insertDesc]
  | cons y ys ih =>
    simp only [insertDesc]
    split_ifs
    · simp only [List.mem_cons, ih]
      tauto
    · simp only [List.mem_cons]

theorem length_insertDesc (x : Nat × Doc) : ∀ l, (insertDesc x l).length = l.length + 1 := by
  intro l
  induction l with
  | nil => rfl
  | cons y ys ih =>
    simp only [insertDesc]
    split_ifs <;> simp [ih]

theorem sorted_insertDesc (x : Nat × Doc) :
    ∀ l, l.Pairwise (fun a b => b.1 ≤ a.1) →
      (insertDesc x l).Pairwise (fun a b => b.1 ≤ a.1) := by
  intro l
  induction l with
  | nil =>
    intro _
    simp [insertDesc]
  | cons y ys ih =>
    intro h
    rcases List.pairwise_cons.1 h with ⟨hy, hys⟩
    simp only [insertDesc]
    split_ifs with hlt
    · rw [List.pairwise_cons]
      constructor
      · intro a ha
        rcases mem_insertDesc.1 ha with rfl | ha2
        · exact le_of_lt hlt
        · exact hy a ha2
      · exact ih hys
    · rw [List.pairwise_cons]
      constructor
      · intro a ha
        rcases List.mem_cons.1 ha with rfl | ha2
        · exact Nat.not_lt.1 hlt
        · exact le_trans (hy a ha2) (Nat.not_lt.1 hlt)
      · exact h

theorem sorted_sortDesc : ∀ l, (sortDesc l).Pairwise (fun a b => b.1 ≤ a.1) := by
  intro l
  induction l with
  | nil => simp [sortDesc]
  | cons x xs ih => exact sorted_insertDesc x _ ih

theorem length_sortDesc : ∀ l, (sortDesc l).length = l.length := by
  intro l
  induction l with
  | nil => rfl
  | cons x xs ih =>
    show (insertDesc x (sortDesc xs)).length = xs.length + 1
    rw [length_insertDesc, ih]

theorem mem_sortDesc {a : Nat × Doc} : ∀ {l}, a ∈ sortDesc l → a ∈ l := by
  intro l
  induction l with
  | nil => intro h; exact absurd h (by simp [sortDesc])
  | cons x xs ih =>
    intro h
    rcases mem_insertDesc.1 h with rfl | h2
    · exact List.mem_cons_self _ _
    · exact List.mem_cons_of_mem _ (ih h2)

theorem filter_insertDesc_ne (x : Nat × Doc) (s : Nat) (hx : x.1 ≠ s) :
    ∀ l, (insertDesc x l).filter (fun y => y.1 == s) = l.filter (fun y => y.1 == s) := by
  intro l
  induction l with
  | nil => simp [insertDesc, hx]
  | cons y ys ih =>
    simp only [insertDesc]
    split_ifs
    · simp only [List.filter_cons, ih]
    · simp [List.filter_cons, hx]

theorem filter_insertDesc_eq (x : Nat × Doc) (s : Nat) (hx : x.1 = s) :
    ∀ l, l.Pairwise (fun a b => b.1 ≤ a.1) →
      (insertDesc x l).filter (fun y => y.1 == s) = x :: l.filter (fun y => y.1 == s) := by
  intro l
  induction l with
  | nil =>
    intro _
    simp [insertDesc, hx]
  | cons y ys ih =>
    intro h
    rcases List.pairwise_cons.1 h with ⟨_, hys⟩
    simp only [insertDesc]
    split_ifs with hlt
    · have hyne : (y.1 == s) = false := by
        simp only [beq_eq_false_iff_ne, ne_eq]
        omega
      simp [List.filter_cons, hyne, ih hys]
    · simp [List.filter_cons, hx]

theorem sortDesc_filter (s : Nat) :
    ∀ l, (sortDesc l).filter (fun y => y.1 == s) = l.filter (fun y => y.1 == s) := by
  intro l
  induction l with
  | nil => rfl
  | cons x xs ih =>
    by_cases hx : x.1 = s
    · rw [show sortDesc (x :: xs) = insertDesc x (sortDesc xs) from rfl,
        filter_insertDesc_eq x s hx _ (sorted_sortDesc xs), ih, List.filter_cons]
      simp [hx]
    · rw [show sortDesc (x :: xs) = insertDesc x (sortDesc xs) from rfl,
        filter_insertDesc_ne x s hx, ih, List.filter_cons]
      simp [hx]

/-- C3: the ranking pass sorts the positively-scored documents by score
descending, and the sort is stable — for each score value the
subsequence of documents carrying it is unchanged — while the scored
list itself preserves the retrieval order of the candidate set. -/
theorem C3_ranking_stable (qts : List Str) (docs : List Doc) :
    (sortDesc (scoredDocs qts docs)).Pairwise (fun a b => b.1 ≤ a.1) ∧
    (∀ s : Nat, (sortDesc (scoredDocs qts docs)).filter (fun y => y.1 == s) =
      (scoredDocs qts docs).filter (fun y => y.1 == s)) ∧
    List.Sublist ((scoredDocs qts docs).map Prod.snd) docs := by
  refine ⟨sorted_sortDesc _, fun s => sortDesc_filter s _, ?_⟩
  rw [scoredDocs_eq]
  simp only [List.map_map]
  have hc : (Prod.snd ∘ fun d : Doc => (docScore qts d, d)) = id := rfl
  rw [hc, List.map_id]
  exact List.filter_sublist _

theorem length_pySlice_of_nonneg {α : Type} (l : List α) (k : Int) (h : 0 ≤ k) :
    (pySlice l k).length = min k.toNat l.length := by
  simp [pySlice, h, List.length_take]

theorem pySlice_subset {α : Type} (l : List α) (k : Int) : ∀ a ∈ pySlice l k, a ∈ l := by
  intro a ha
  unfold pySlice at ha
  split_ifs at ha <;> exact List.take_subset _ _ ha

/-- C2 (amended): for a non-negative `top_k` the ask endpoint returns at
most `min(top_k, number of positively scored candidates)` sources. -/
theorem C2_topk_bound (q : Str) (store : List Doc) (k : Int) (resp : AskResponse)
    (hk : 0 ≤ k) (h : handle_ask q store k = Except.ok resp) :
    (resp.sources.length : Int) ≤
      min k ((scoredDocs (tokenize (strip q)) (get_documents store 100)).length : Int) := by
  have hmin : (0 : Int) ≤
      min k ((scoredDocs (tokenize (strip q)) (get_documents store 100)).length : Int) :=
    le_min hk (Int.ofNat_nonneg _)
  unfold handle_ask at h
  split at h
  · exact absurd h (by simp)
  · simp only [ask_question] at h
    split at h
    · exact absurd h (by simp)
    · split at h
      · rw [Except.ok.injEq] at h
        subst h
        simpa using hmin
      · split at h
        · rw [Except.ok.injEq] at h
          subst h
          simpa using hmin
        · rw [Except.ok.injEq] at h
          subst h
          simp only [List.length_map]
          rw [length_pySlice_of_nonneg _ _ hk, length_sortDesc]
          rw [Nat.cast_min, Int.toNat_of_nonneg hk]

/-- Witness for C2 at a concrete request. -/
theorem C2_topk_bound_witness :
    ((0 : Int) ≤ 3 ∧ handle_ask (strCodes "what") [] 3 = Except.ok ⟨noResourcesMsg, []⟩) ∧
    (((AskResponse.mk noResourcesMsg []).sources.length : Int) ≤
      min 3 ((scoredDocs (tokenize (strip (strCodes "what")))
        (get_documents ([] : List Doc) 100)).length : Int)) :=
  ⟨⟨by decide, by decide⟩,
    C2_topk_bound (strCodes "what") [] 3 ⟨noResourcesMsg, []⟩ (by decide) (by decide)⟩

/-- Counterexample to C2 as stated: with two positively scoring
documents and `top_k = -1` the endpoint returns one source, but
`min(top_k, number of positively scored documents)` is `-1`. -/
theorem C2_counterexample :
    handle_ask (strCodes "rust")
        [⟨1, [], [], strCodes "rust"⟩, ⟨2, [], [], strCodes "rust"⟩] (-1) =
      Except.ok ⟨answerIntro ++ strCodes "rust" ++ answerOutro, [⟨1, [], []⟩]⟩ ∧
    ¬(((AskResponse.mk (answerIntro ++ strCodes "rust" ++ answerOutro)
          [⟨1, [], []⟩]).sources.length : Int) ≤
        min (-1 : Int) ((scoredDocs (tokenize (strip (strCodes "rust")))
          (get_documents [⟨1, [], [], strCodes "rust"⟩, ⟨2, [], [], strCodes "rust"⟩]
            100)).length : Int)) := by
  constructor
  · decide
  · decide

/-- C4: the snippet extractor never returns more than 600 characters,
on the sentence-joining branch and on the raw-content branch alike. -/
theorem C4_snippet_length (text : Str) (qts : List Str) :
    (extract_snippets text qts).length ≤ 600 := by
  show (if (selectLoop qts (splitSentences text) []).isEmpty then List.take 600 text
      else List.take 600 (joinSpace (selectLoop qts (splitSentences text) []))).length ≤ 600
  split
  · exact List.length_take_le 600 text
  · exact List.length_take_le 600 _

theorem sumLen_append_one (l : List Str) (w : Str) :
    sumLen (l ++ [w]) = sumLen l + w.length := by
  simp [sumLen]

theorem selectLoop_eq (qts : List Str) :
    ∀ (sents sel : List Str), sumLen sel ≤ 600 →
      selectLoop qts sents sel =
        sel ++ takeUntilOverflow (sumLen sel) (((sents.filter (sentenceMatches qts)).map strip)) := by
  intro sents
  induction sents with
  | nil =>
    intro sel h
    simp [selectLoop, takeUntilOverflow]
  | cons s rest ih =>
    intro sel h
    by_cases hm : sentenceMatches qts s
    · simp only [selectLoop, hm, if_true, List.filter_cons, List.map_cons]
      by_cases hov : 600 < sumLen (sel ++ [strip s])
      · rw [if_pos hov, takeUntilOverflow]
        rw [sumLen_append_one] at hov
        rw [if_pos hov]
      · rw [if_neg hov, takeUntilOverflow]
        rw [sumLen_append_one] at hov
        rw [if_neg hov, ih (sel ++ [strip s]) (by rw [sumLen_append_one]; omega),
          sumLen_append_one]
        simp
    · have hm2 : sentenceMatches qts s = false := by
        rwa [Bool.not_eq_true] at hm
      simp only [selectLoop, hm2, if_false, List.filter_cons, Bool.false_eq_true]
      rw [if_neg (by omega : ¬ 600 < sumLen sel)]
      exact ih sel h

theorem takeUntilOverflow_isEmpty (M : List Str) :
    (takeUntilOverflow 0 M).isEmpty = M.isEmpty := by
  cases M with
  | nil => rfl
  | cons s rest =>
    simp only [takeUntilOverflow]
    split_ifs <;> rfl

/-- C5: the snippet extractor splits at `.`, `!` or `?` followed by
whitespace, keeps exactly the sentences whose lowercased form contains
some question token as a literal substring, accumulating them in order
until the running total of their lengths exceeds 600, and falls back to
the first 600 raw characters when no sentence matches — i.e. it equals
the spec-worded algorithm. -/
theorem C5_snippet_algorithm (text : Str) (qts : List Str) :
    extract_snippets text qts = extractSnippetsSpec text qts := by
  unfold extract_snippets extractSnippetsSpec
  rw [selectLoop_eq qts (splitSentences text) [] (by simp [sumLen])]
  simp only [List.nil_append]
  have hM : (((splitSentences text).filter (sentenceMatches qts)).map strip) =
      matchedSentences text qts := rfl
  rw [hM, show sumLen ([] : List Str) = 0 from rfl]
  by_cases h : matchedSentences text qts = []
  · simp [h, takeUntilOverflow]
  · have h1 : (takeUntilOverflow 0 (matchedSentences text qts)).isEmpty = false := by
      rw [takeUntilOverflow_isEmpty, List.isEmpty_eq_false]
      exact h
    rw [if_neg h, if_neg (by simp [h1])]

/-- C8: with a valid question, an empty candidate set yields a normal
success carrying exactly the fixed no-resources message and no sources,
and a non-empty candidate set in which every document scores zero
yields a normal success carrying exactly the fixed no-information
message and no sources. -/
theorem C8_empty_results (q : Str) (store : List Doc) (k : Int)
    (h3 : 3 ≤ q.length) (hq : strip q ≠ []) :
    (get_documents store 100 = [] →
      handle_ask q store k = Except.ok ⟨noResourcesMsg, []⟩) ∧
    (get_documents store 100 ≠ [] →
      (∀ d ∈ get_documents store 100, docScore (tokenize (strip q)) d = 0) →
      handle_ask q store k = Except.ok ⟨noInfoMsg, []⟩) := by
  have hlen : ¬ q.length < 3 := by omega
  have hqe : (strip q).isEmpty = false := by
    rw [List.isEmpty_eq_false]
    exact hq
  constructor
  · intro hd
    simp only [handle_ask, if_neg hlen, ask_question, hqe, Bool.false_eq_true, if_false, hd]
    simp
  · intro hd hz
    have hsc := scoredDocs_of_all_zero (tokenize (strip q)) _ hz
    have hde : (get_documents store 100).isEmpty = false := by
      rw [List.isEmpty_eq_false]
      exact hd
    simp only [handle_ask, if_neg hlen, ask_question, hqe, Bool.false_eq_true, if_false,
      hde, hsc]
    simp

/-- Witness for C8 on an empty store. -/
theorem C8_empty_results_witness :
    (3 ≤ (strCodes "what is rust").length ∧ strip (strCodes "what is rust") ≠ []) ∧
    handle_ask (strCodes "what is rust") [] 3 = Except.ok ⟨noResourcesMsg, []⟩ :=
  ⟨⟨by decide, by decide⟩,
    (C8_empty_results (strCodes "what is rust") [] 3 (by decide) (by decide)).1 rfl⟩

theorem strip_eq_nil_of_space (q : Str) (h : ∀ c ∈ q, isSpace c = true) : strip q = [] := by
  unfold strip
  have h1 : (q.dropWhile fun c => isSpace c) = [] := by
    rw [List.dropWhile_eq_nil_iff]
    exact h
  rw [h1]
  rfl

/-- C9: an empty or whitespace-only question is rejected with a client
error (422 from body validation, otherwise 400 from the emptiness
check) and the outcome is the same whatever the store holds — no store
query can influence it. -/
theorem C9_question_validation (q : Str) (store store2 : List Doc) (k : Int)
    (h : ∀ c ∈ q, isSpace c = true) :
    (handle_ask q store k = Except.error 422 ∨ handle_ask q store k = Except.error 400) ∧
    handle_ask q store k = handle_ask q store2 k := by
  have hs : strip q = [] := strip_eq_nil_of_space q h
  unfold handle_ask
  by_cases hlen : q.length < 3
  · simp [hlen]
  · simp only [if_neg hlen, ask_question, hs]
    simp

/-- Witness for C9 on a three-space question. -/
theorem C9_question_validation_witness :
    (handle_ask [32, 32, 32] [⟨1, [], [], strCodes "rust"⟩] 3 = Except.error 422 ∨
      handle_ask [32, 32, 32] [⟨1, [], [], strCodes "rust"⟩] 3 = Except.error 400) ∧
    handle_ask [32, 32, 32] [⟨1, [], [], strCodes "rust"⟩] 3 = handle_ask [32, 32, 32] [] 3 :=
  C9_question_validation [32, 32, 32] [⟨1, [], [], strCodes "rust"⟩] [] 3 (by decide)

theorem ask_take_100 (q : Str) (store : List Doc) (k : Int) :
    ask_question q store k = ask_question q (store.take 100) k := by
  simp only [ask_question, get_documents, List.take_take, Nat.min_self]

/-- C10: the ask endpoint fetches candidates with a fixed limit of 100,
so its outcome only depends on the first 100 stored documents, and
every cited source comes from that candidate set. -/
theorem C10_limit_100 (q : Str) (store : List Doc) (k : Int) (resp : AskResponse)
    (h : handle_ask q store k = Except.ok resp) :
    handle_ask q store k = handle_ask q (store.take 100) k ∧
    ∀ s ∈ resp.sources, ∃ d, d ∈ get_documents store 100 ∧
      s = Source.mk d.id d.title d.url := by
  constructor
  · unfold handle_ask
    split
    · rfl
    · exact ask_take_100 q store k
  · unfold handle_ask at h
    split at h
    · exact absurd h (by simp)
    · simp only [ask_question] at h
      split at h
      · exact absurd h (by simp)
      · split at h
        · rw [Except.ok.injEq] at h
          subst h
          intro s hs
          exact absurd hs (by simp)
        · split at h
          · rw [Except.ok.injEq] at h
            subst h
            intro s hs
            exact absurd hs (by simp)
          · rw [Except.ok.injEq] at h
            subst h
            intro s hs
            simp only [List.mem_map] at hs
            rcases hs with ⟨d, hd, rfl⟩
            refine ⟨d, ?_, rfl⟩
            rcases hd with ⟨p, hp, rfl⟩
            exact scoredDocs_mem (mem_sortDesc (pySlice_subset _ _ _ hp))

/-- Witness for C10 on an empty store. -/
theorem C10_limit_100_witness :
    handle_ask (strCodes "what") [] 3 = Except.ok ⟨noResourcesMsg, []⟩ ∧
    (handle_ask (strCodes "what") [] 3 = handle_ask (strCodes "what") (List.take 100 []) 3 ∧
      ∀ s ∈ (AskResponse.mk noResourcesMsg []).sources, ∃ d, d ∈ get_documents [] 100 ∧
        s = Source.mk d.id d.title d.url) :=
  ⟨by decide, C10_limit_100 (strCodes "what") [] 3 ⟨noResourcesMsg, []⟩ (by decide)⟩
